import Mathlib

/-!
A verification development for the `ask` CLI tool (Go).  The Go source is
shallowly embedded: strings are lists of characters (Go indexing/slicing is
byte-based; all inputs of interest are ASCII, where bytes and characters
coincide), and every function below mirrors the control flow of the
corresponding Go function line by line.  External effects (the shell, the
editor, the OpenAI API, the file system clock) are modelled as explicit
inputs.
-/

/-- Strings are modelled as lists of characters. -/
abbrev Str := List Char

/-- Whitespace predicate of Go's `unicode.IsSpace`, restricted to ASCII
(space, tab, newline, vertical tab, form feed, carriage return). -/
def isSpaceChar (c : Char) : Bool :=
  c = ' ' || c = '\t' || c = '\n' || c = Char.ofNat 11 || c = Char.ofNat 12 || c = '\r'

/-- Go `strings.TrimSpace`: drop whitespace from both ends. -/
def trimSpace (s : Str) : Str :=
  ((s.dropWhile isSpaceChar).reverse.dropWhile isSpaceChar).reverse

/-- Go `strings.Split(s, sep)` for a one-character separator. -/
def splitOnChar (sep : Char) : Str → List Str
  | [] => [[]]
  | c :: rest =>
    if c = sep then [] :: splitOnChar sep rest
    else
      match splitOnChar sep rest with
      | [] => [[c]]
      | l :: ls => (c :: l) :: ls

/-- Go `strings.Split(s, "\n")`. -/
def splitNL (s : Str) : List Str := splitOnChar '\n' s

/-- Go `strings.Split(s, " ")`. -/
def splitSp (s : Str) : List Str := splitOnChar ' ' s

/-- The backtick character (written via its code point). -/
def backtickChar : Char := Char.ofNat 96

/-- The triple-backtick fence marker. -/
def fenceMarker : Str := [backtickChar, backtickChar, backtickChar]

/-- A (trimmed) line opens/closes a fenced block when it starts with the
triple-backtick marker (`strings.HasPrefix(trimmed, ...)`). -/
def isFenceLine (trimmed : Str) : Bool := fenceMarker.isPrefixOf trimmed

/-- The `"$ "` marker for bare command lines. -/
def dollarMarker : Str := ['$', ' ']

/-- Go `parseCommandLine(line, inBlock)`: inside a block every non-empty,
non-`#` line is a command (returned verbatim, trimmed); outside a block only
`"$ "`-prefixed lines are commands (marker stripped). -/
def parseCommandLine (line : Str) (inBlock : Bool) : Str :=
  let trimmed := trimSpace line
  if trimmed = [] then []
  else if inBlock then
    if ['#'].isPrefixOf trimmed then [] else trimmed
  else
    if dollarMarker.isPrefixOf trimmed then trimmed.drop 2 else []

/-- One step of the block-close loop in `extractCommands`: a block line
contributes a command iff `parseCommandLine(bl, true)` is non-empty. -/
def blockCmdOpt (bl : Str) : Option Str :=
  let c := parseCommandLine bl true
  if c = [] then none else some c

/-- An outside-block line contributes a command iff
`parseCommandLine(trimmed, false)` is non-empty. -/
def outCmdOpt (trimmed : Str) : Option Str :=
  let c := parseCommandLine trimmed false
  if c = [] then none else some c

/-- The loop of Go `extractCommands`, with its mutable state (`inBlock`,
`blockLines`) made explicit. -/
def extractCommandsAux : List Str → Bool → List Str → List Str
  | [], _, _ => []
  | line :: rest, inBlock, blockLines =>
    let trimmed := trimSpace line
    if isFenceLine trimmed then
      if inBlock then
        blockLines.filterMap blockCmdOpt ++ extractCommandsAux rest false []
      else
        extractCommandsAux rest true []
    else if inBlock then
      extractCommandsAux rest inBlock (blockLines ++ [line])
    else
      match outCmdOpt trimmed with
      | some c => c :: extractCommandsAux rest inBlock blockLines
      | none => extractCommandsAux rest inBlock blockLines

/-- Go `extractCommands(answer)`. -/
def extractCommands (answer : Str) : List Str :=
  extractCommandsAux (splitNL answer) false []

/-- Concatenation performed by the `strings.Builder` in `extractCodeBlock`:
each collected line is appended followed by a newline. -/
def joinNL (lines : List Str) : Str :=
  lines.foldr (fun l acc => l ++ '\n' :: acc) []

/-- The loop of Go `extractCodeBlock`: returns the accumulated content at the
first closing fence; an unterminated block falls off the end of the loop and
yields the empty string. -/
def extractCodeBlockAux : List Str → Bool → Str → Str
  | [], _, _ => []
  | line :: rest, inBlock, acc =>
    let trimmed := trimSpace line
    if isFenceLine trimmed then
      if inBlock then acc
      else extractCodeBlockAux rest true acc
    else if inBlock then
      extractCodeBlockAux rest inBlock (acc ++ line ++ ['\n'])
    else
      extractCodeBlockAux rest inBlock acc

/-- Go `extractCodeBlock(lines)`. -/
def extractCodeBlockLines (lines : List Str) : Str :=
  extractCodeBlockAux lines false []

/-- The `"$ "`-scan fallback of Go `extractCommand`: collect every line whose
trimmed form starts with `"$ "` (marker stripped) and return the first, or
the empty string. -/
def dollarFirst (lines : List Str) : Str :=
  match lines.filterMap (fun line =>
      let trim := trimSpace line
      if dollarMarker.isPrefixOf trim then some (trim.drop 2) else none) with
  | [] => []
  | c :: _ => c

/-- Go `extractCommand`, after splitting the answer into lines. -/
def extractCommandLines (lines : List Str) : Str :=
  let codeBlock := extractCodeBlockLines lines
  if codeBlock ≠ [] then trimSpace codeBlock
  else dollarFirst lines

/-- Go `extractCommand(answer)`. -/
def extractCommand (answer : Str) : Str :=
  extractCommandLines (splitNL answer)

/-- Go `strings.Index(s, pat)`: index of the first occurrence of `pat` in
`s`, or `none` (Go: `-1`). -/
def indexOfSubstr : Str → Str → Option Nat
  | s, pat =>
    if pat.isPrefixOf s then some 0
    else
      match s with
      | [] => none
      | _ :: t => (indexOfSubstr t pat).map (· + 1)

/-- The heading searched for by the truncation code of `handleAsk`. -/
def ctxMarker : Str := "Additional Context:\n".data

/-- The text inserted when pending context is appended to a prompt. -/
def ctxAppend : Str := "\n\nAdditional Context:\n".data

/-- The length-limit block of Go `handleAsk` (the code between computing
`maxChars` and the debug print), translated with all of its branches —
including the context-aware ones sitting inside the `else` of the first
length test, which that test makes unreachable. -/
def truncateAskPrompt (prompt : Str) (maxChars : Nat) : Str :=
  if prompt.length > maxChars then prompt.take maxChars
  else
    match indexOfSubstr prompt ctxMarker with
    | some index =>
      if prompt.length > maxChars then
        let overage := prompt.length - maxChars
        let contextStart := index + ctxMarker.length
        let contextLen := prompt.length - contextStart
        if contextLen > overage then
          prompt.take (prompt.length - overage)
        else
          prompt.take index
      else prompt
    | none =>
      if prompt.length > maxChars then prompt.take maxChars else prompt

/-- The plain length cap used by `handleRefine` and by the `ask`/`refine`
branches of `handleInteractive`. -/
def truncateSimple (prompt : Str) (maxChars : Nat) : Str :=
  if prompt.length > maxChars then prompt.take maxChars else prompt

/-- Length of the text with the context section removed: everything before
the first `"Additional Context:\n"` heading, or the whole text when there is
no heading. -/
def lenNoCtx (prompt : Str) : Nat :=
  match indexOfSubstr prompt ctxMarker with
  | some index => index
  | none => prompt.length

/-- The pending-context flush at the top of Go `handleAsk`: if the pending
file is non-empty its content is appended under an "Additional Context:"
heading and the pending file is cleared.  Returns the augmented prompt and
the new pending content. -/
def flushPending (prompt pending : Str) : Str × Str :=
  if pending ≠ [] then (prompt ++ ctxAppend ++ pending, [])
  else (prompt, pending)

/-- Result of `runShellCommand`: combined stdout+stderr and whether the
command exited successfully. -/
structure ShellResult where
  output : Str
  ok : Bool
deriving DecidableEq

/-- The delimited context entry written by every context path:
`"\n---\nCommand: <cmd>\n<output>\n"`. -/
def mkEntry (cmd output : Str) : Str :=
  "\n---\nCommand: ".data ++ cmd ++ '\n' :: output ++ ['\n']

/-- Go `addContextCommand(cmdStr, sessionPath)`, with the shell call an
input and `context.txt` an explicit string.  Returns the new `context.txt`
content and whether an error is surfaced to the caller.  The entry is
appended before the command's error is checked. -/
def addContextCommand (cmd : Str) (res : ShellResult) (contextTxt : Str) : Str × Bool :=
  let contextTxt' := contextTxt ++ mkEntry cmd res.output
  if !res.ok then (contextTxt', true) else (contextTxt', false)

/-- Outcome of the one-shot `ask context` flow (`handleContext`). -/
structure HCResult where
  contextTxt : Str
  pending : Str
  exited : Bool
deriving DecidableEq

/-- Go `handleContext`, with `getLastSession` success abstracted as
`hasSession`.  With no session and a failing command it exits without
recording; with a session it records via `addContextCommand` and exits when
that surfaces an error. -/
def handleContextModel (cmd : Str) (res : ShellResult) (hasSession : Bool)
    (contextTxt pending : Str) : HCResult :=
  if !hasSession then
    if !res.ok then ⟨contextTxt, pending, true⟩
    else ⟨contextTxt, pending ++ mkEntry cmd res.output, false⟩
  else
    let r := addContextCommand cmd res contextTxt
    if r.2 then ⟨r.1, pending, true⟩ else ⟨r.1, pending, false⟩

/-- A wall-clock instant; `time.Now()` carries sub-second precision. -/
structure Timestamp where
  secs : Nat
  nanos : Nat
deriving DecidableEq

/-- The session key produced by `Format("20060102-150405")`: the timestamp
truncated to whole seconds. -/
def sessionKey (t : Timestamp) : Nat := t.secs

/-- Errors surfaced by `storeSession`. -/
inductive StorageError
  | mkdirRootFailed
  | mkdirSessionConflict
deriving DecidableEq

/-- One stored session directory with its three files written at creation. -/
structure SessionDir where
  key : Nat
  promptTxt : Str
  responseTxt : Str
  originalPromptTxt : Str
deriving DecidableEq

/-- The sessions root: whether `os.MkdirAll` on it succeeds, and the session
directories that exist. -/
structure SessionsFS where
  rootOk : Bool
  sessions : List SessionDir
deriving DecidableEq

/-- Go `storeSession(prompt, answer, originalPrompt)`: fails when the root
cannot be created; keys the new directory by the second-truncated timestamp;
`os.Mkdir` (not `MkdirAll`) fails when that directory already exists. -/
def storeSession (fs : SessionsFS) (t : Timestamp) (prompt answer originalPrompt : Str) :
    Except StorageError (SessionsFS × Nat) :=
  if !fs.rootOk then .error .mkdirRootFailed
  else
    let key := sessionKey t
    if fs.sessions.any (fun d => d.key = key) then .error .mkdirSessionConflict
    else .ok (⟨fs.rootOk, fs.sessions ++ [⟨key, prompt, answer, originalPrompt⟩]⟩, key)

/-- Decimal digit value of a character, or `none`. -/
def digitVal (c : Char) : Option Nat :=
  if 48 ≤ c.toNat ∧ c.toNat ≤ 57 then some (c.toNat - 48) else none

/-- Go `strconv.Atoi`: optional sign followed by at least one digit. -/
def atoi (s : Str) : Option Int :=
  let signed : Bool × Str :=
    match s with
    | '-' :: rest => (true, rest)
    | '+' :: rest => (false, rest)
    | _ => (false, s)
  if signed.2 = [] then none
  else
    (signed.2.foldl (fun acc c => acc.bind fun n => (digitVal c).map fun d => n * 10 + (d : Int))
      (some (0 : Int))).map fun n => if signed.1 then -n else n

/-- Decimal digit character. -/
def digitChar (n : Nat) : Char := Char.ofNat (48 + n)

/-- Helper for `fmtNat`; the first argument is fuel bounding the number of
divisions (structural recursion so the kernel can evaluate it). -/
def fmtNatAux : Nat → Nat → Str → Str
  | 0, _, acc => acc
  | fuel + 1, n, acc =>
    if n = 0 then acc else fmtNatAux fuel (n / 10) (digitChar (n % 10) :: acc)

/-- Decimal rendering of a natural number (Go `fmt.Printf("%d", ...)`). -/
def fmtNat (n : Nat) : Str := if n = 0 then ['0'] else fmtNatAux n n []

/-- A session directory as seen from the interactive loop: the three files
written at creation plus the optional `run_output.txt` and `context.txt`
(empty string standing for an absent file, as in `readFileIfExists`). -/
structure ISession where
  prompt : Str
  response : Str
  origP : Str
  runOutput : Str
  contextTxt : Str
deriving DecidableEq

/-- The mutable variables of Go `handleInteractive`. -/
structure IState where
  currentPrompt : Str
  currentAnswer : Str
  originalPrompt : Str
  pending : Str
  currentSession : Option ISession
  commands : List Str
deriving DecidableEq

/-- The initial state of the interactive loop. -/
def initIState : IState := ⟨[], [], [], [], none, []⟩

/-- Results of the external collaborators consumed during one loop
iteration: the editor's returned text, the API reply (`none` = error), the
shell result, the extra line read by the bare `context` command, and the
confirmation input of `runCommandInteractively`. -/
structure ExtIn where
  editor : Str
  api : Option Str
  shell : ShellResult
  ctxLine : Str
  confirmInput : Str

/-- Go `addContextInInteractive`: a failing command is reported and nothing
is recorded; otherwise the entry goes to the current session's
`context.txt` when a session exists, else to the in-memory pending
builder. -/
def addContextInInteractive (cmd : Str) (res : ShellResult) (s : IState) : IState :=
  if !res.ok then s
  else
    match s.currentSession with
    | some ss =>
      {s with currentSession := some {ss with contextTxt := ss.contextTxt ++ mkEntry cmd res.output}}
    | none => {s with pending := s.pending ++ mkEntry cmd res.output}

/-- Go `runCommandInteractively`, acting on the current session: the user
may replace the command via the editor; `run_output.txt` is written only
when the combined output is non-empty. -/
def runCommandInteractivelyModel (cmdStr : Str) (ext : ExtIn) (sess : ISession) : ISession :=
  let cmd2 := if ext.confirmInput = "edit".data then trimSpace ext.editor else cmdStr
  if cmd2 = [] then sess
  else if ext.shell.output ≠ [] then {sess with runOutput := ext.shell.output}
  else sess

/-- The `run` branch of Go `handleInteractive` (the `strings.HasPrefix(line,
"run")` arm): returns the new state and the printed lines. -/
def handleRun (line : Str) (s : IState) (ext : ExtIn) : IState × List Str :=
  if (splitSp line).length = 1 then
    if s.commands = [] then (s, ["No commands available.".data])
    else
      (s, "Available commands:".data ::
        s.commands.enum.map (fun p => fmtNat (p.1 + 1) ++ ": ".data ++ p.2))
  else
    if s.commands = [] then (s, ["No commands available to run.".data])
    else
      match atoi (((splitSp line).drop 1).headD []) with
      | none => (s, ["Invalid command number.".data])
      | some n =>
        if n < 1 ∨ n > (s.commands.length : Int) then
          (s, ["Invalid command number.".data])
        else
          let cmdStr := (s.commands.drop (n.toNat - 1)).headD []
          let sess :=
            match s.currentSession with
            | some ss => ss
            | none => ⟨s.currentPrompt, s.currentAnswer, s.originalPrompt, [], []⟩
          ({s with currentSession := some (runCommandInteractivelyModel cmdStr ext sess)}, [])

/-- The prompt assembled by the `ask` branch before truncation: the current
prompt, with the pending context appended under the heading when
non-empty. -/
def askPrompt (s : IState) : Str :=
  if s.pending ≠ [] then s.currentPrompt ++ ctxAppend ++ s.pending
  else s.currentPrompt

/-- The `ask` branch of Go `handleInteractive`.  The pending-context merge
and the truncation mutate `currentPrompt` (and reset the pending builder)
before the API call, so they stick even when the call fails; on success
`originalPrompt` is set on first write and a new session is stored. -/
def doAsk (maxChars : Nat) (s : IState) (ext : ExtIn) : IState :=
  if s.currentPrompt = [] then s
  else
    let pending1 : Str := if s.pending ≠ [] then [] else s.pending
    let p2 := truncateSimple (askPrompt s) maxChars
    match ext.api with
    | none => {s with currentPrompt := p2, pending := pending1}
    | some ans =>
      let orig1 := if s.originalPrompt = [] then p2 else s.originalPrompt
      { currentPrompt := p2, currentAnswer := ans, originalPrompt := orig1,
        pending := pending1, currentSession := some ⟨p2, ans, orig1, [], []⟩,
        commands := extractCommands ans }

/-- The value `originalPrompt` holds after the `refine` branch re-reads
`original_prompt.txt` from the current session (kept when the file is absent
or empty). -/
def refineOrig (s : IState) : Str :=
  match s.currentSession with
  | some ss => if ss.origP ≠ [] then ss.origP else s.originalPrompt
  | none => s.originalPrompt

/-- The refinement prompt assembled by the `refine` branch (before
truncation), from the re-read original prompt, the current answer, the
session's run output and context, and the editor's refinement text. -/
def refinePrompt (s : IState) (refinement : Str) : Str :=
  let runOut : Str := match s.currentSession with | some ss => ss.runOutput | none => []
  let ctxOut : Str := match s.currentSession with | some ss => ss.contextTxt | none => []
  let fp0 := "Refine this answer with the following context:\nORIGINAL PROMPT:\n".data ++
    refineOrig s ++ "\nANSWER:\n".data ++ s.currentAnswer
  let fp1 := if runOut ≠ [] then fp0 ++ "\nRUN OUTPUT:\n".data ++ runOut else fp0
  let fp2 := if ctxOut ≠ [] then fp1 ++ "\nADDITIONAL CONTEXT:\n".data ++ ctxOut else fp1
  fp2 ++ "\nREFINEMENT:\n".data ++ refinement

/-- The `refine` branch of Go `handleInteractive`: previous run output and
context are read from the current session, `originalPrompt` is re-read from
`original_prompt.txt` when that file is non-empty, and the refinement prompt
is assembled, truncated and sent; on success a new session is stored with
the same original prompt. -/
def doRefine (maxChars : Nat) (s : IState) (ext : ExtIn) : IState :=
  if s.currentAnswer = [] then s
  else
    match ext.api with
    | none => {s with originalPrompt := refineOrig s}
    | some ans =>
      {s with currentAnswer := ans, originalPrompt := refineOrig s,
              currentSession := some ⟨truncateSimple (refinePrompt s ext.editor) maxChars,
                                      ans, refineOrig s, [], []⟩,
              commands := extractCommands ans}

/-- The dispatch of one iteration of the Go `handleInteractive` loop on the
already-trimmed input line, exactly as the Go `switch`/`if` chain does.
Branches that only print (`exit`, `help`, `show`, unknown) leave the state
unchanged. -/
def stepLine (maxChars : Nat) (s : IState) (line : Str) (ext : ExtIn) : IState :=
  if line = "exit".data then s
  else if line = "help".data then s
  else if line = "prompt".data then {s with currentPrompt := ext.editor}
  else if "prompt ".data.isPrefixOf line then
    {s with currentPrompt := line.drop 7}
  else if line = "ask".data then doAsk maxChars s ext
  else if line = "refine".data then doRefine maxChars s ext
  else if "run".data.isPrefixOf line then (handleRun line s ext).1
  else if line = "context".data then
    if trimSpace ext.ctxLine = [] then s
    else addContextInInteractive (trimSpace ext.ctxLine) ext.shell s
  else if "context ".data.isPrefixOf line then
    addContextInInteractive (line.drop 8) ext.shell s
  else s

/-- One iteration of the Go `handleInteractive` loop: the raw input line is
trimmed, then dispatched. -/
def step (maxChars : Nat) (s : IState) (rawLine : Str) (ext : ExtIn) : IState :=
  stepLine maxChars s (trimSpace rawLine) ext

/-- The reachability invariant of the interactive loop relating the stored
`original_prompt.txt` of the current session to the `originalPrompt`
variable. -/
def InvOrig (s : IState) : Prop :=
  ∀ ss, s.currentSession = some ss → ss.origP ≠ [] → ss.origP = s.originalPrompt

/-- A session directory created in the same second as an existing one is a
creation conflict (`os.Mkdir` on an existing path fails); elimination form
of a successful `storeSession`. -/
theorem storeSession_ok_elim {fs fs2 : SessionsFS} {t : Timestamp} {p a o : Str} {k : Nat}
    (h : storeSession fs t p a o = .ok (fs2, k)) :
    fs.rootOk = true
    ∧ fs.sessions.any (fun d => d.key = sessionKey t) = false
    ∧ fs2 = ⟨fs.rootOk, fs.sessions ++ [⟨sessionKey t, p, a, o⟩]⟩
    ∧ k = sessionKey t := by
  unfold storeSession at h
  by_cases hr : fs.rootOk
  · rw [hr] at h
    simp only [Bool.not_true, Bool.false_eq_true, if_false] at h
    by_cases hk : fs.sessions.any (fun d => d.key = sessionKey t)
    · rw [if_pos hk] at h
      exact absurd h (by simp)
    · rw [if_neg hk] at h
      simp only [Except.ok.injEq, Prod.mk.injEq] at h
      refine ⟨hr, by simpa using hk, ?_, h.2.symm⟩
      rw [← h.1, hr]
  · simp only [Bool.not_eq_true] at hr
    rw [hr] at h
    simp at h

/-- C7: session creation is keyed by the current timestamp truncated to
seconds and fails with a storage error when the backing directory cannot be
created; a second creation within the same second surfaces a creation
conflict instead of silently overwriting the first session's stored
files. -/
theorem storeSession_spec :
    (∀ (fs : SessionsFS) (t : Timestamp) (p a o : Str), fs.rootOk = false →
        storeSession fs t p a o = .error .mkdirRootFailed)
    ∧ (∀ (fs fs2 : SessionsFS) (t : Timestamp) (p a o : Str) (k : Nat),
        storeSession fs t p a o = .ok (fs2, k) → k = t.secs)
    ∧ (∀ (fs fs2 : SessionsFS) (t1 t2 : Timestamp) (p a o p2 a2 o2 : Str) (k : Nat),
        t1.secs = t2.secs →
        storeSession fs t1 p a o = .ok (fs2, k) →
        storeSession fs2 t2 p2 a2 o2 = .error .mkdirSessionConflict
          ∧ (⟨k, p, a, o⟩ : SessionDir) ∈ fs2.sessions) := by
  refine ⟨?_, ?_, ?_⟩
  · intro fs t p a o h
    unfold storeSession
    rw [h]
    rfl
  · intro fs fs2 t p a o k h
    exact (storeSession_ok_elim h).2.2.2
  · intro fs fs2 t1 t2 p a o p2 a2 o2 k hsec h
    obtain ⟨hr, _hk, hfs2, hkey⟩ := storeSession_ok_elim h
    constructor
    · unfold storeSession
      rw [hfs2]
      simp [hr, List.any_append, sessionKey, hsec]
    · rw [hfs2, hkey]
      simp

/-- C1 (code bug): the spec's context-aware truncation — "when the context
section is not longer than the overage, drop the whole context section by
truncating at the start of the heading" — matches the comments inside
`handleAsk`, but that branch sits inside the `else` of `len(prompt) >
maxChars` and is unreachable; the executed path truncates the whole prompt
to `maxChars`.  At this input the heading starts at index 2, the context
section ("C") is shorter than the overage, the spec-mandated result is
"AB", and the code instead returns the first 10 characters
"ABAddition" — cutting mid-heading. -/
theorem truncateAskPrompt_failing_input :
    truncateAskPrompt ("ABAdditional Context:\nC".data) 10 = "ABAddition".data
    ∧ ("ABAddition".data : Str) ≠ "AB".data := by
  exact ⟨by decide, by decide⟩

/-- C9: truncation never increases length — the truncated prompt is at most
`max budget (length of the text with no context section)` — and when the
text exceeds the budget and contains no "Additional Context:" heading the
result is exactly the budget length.  The same bound holds for the plain
cap used by `handleRefine`. -/
theorem truncation_bound (prompt : Str) (maxChars : Nat) :
    (truncateAskPrompt prompt maxChars).length ≤ max maxChars (lenNoCtx prompt)
    ∧ (truncateSimple prompt maxChars).length ≤ max maxChars (lenNoCtx prompt)
    ∧ (prompt.length > maxChars → indexOfSubstr prompt ctxMarker = none →
        (truncateAskPrompt prompt maxChars).length = maxChars) := by
  refine ⟨?_, ?_, ?_⟩
  · unfold truncateAskPrompt
    by_cases h : prompt.length > maxChars
    · rw [if_pos h, List.length_take]
      exact le_trans (Nat.min_le_left _ _) (Nat.le_max_left _ _)
    · rw [if_neg h]
      split
      · rw [if_neg h]
        exact le_trans (Nat.le_of_not_lt h) (Nat.le_max_left _ _)
      · rw [if_neg h]
        exact le_trans (Nat.le_of_not_lt h) (Nat.le_max_left _ _)
  · unfold truncateSimple
    by_cases h : prompt.length > maxChars
    · rw [if_pos h, List.length_take]
      exact le_trans (Nat.min_le_left _ _) (Nat.le_max_left _ _)
    · rw [if_neg h]
      exact le_trans (Nat.le_of_not_lt h) (Nat.le_max_left _ _)
  · intro h _hidx
    unfold truncateAskPrompt
    rw [if_pos h, List.length_take]
    omega

/-- C9 witness: the bound and the exact-budget clause at a concrete
over-budget, heading-free input. -/
theorem truncation_bound_witness :
    (truncateAskPrompt "abcde".data 3).length ≤ max 3 (lenNoCtx "abcde".data)
    ∧ "abcde".data.length > 3
    ∧ indexOfSubstr "abcde".data ctxMarker = none
    ∧ (truncateAskPrompt "abcde".data 3).length = 3 :=
  ⟨(truncation_bound "abcde".data 3).1, by decide, by decide,
    (truncation_bound "abcde".data 3).2.2 (by decide) (by decide)⟩

/-- C4 counterexample: a failing context command in interactive mode with no
current session records nothing — the pending buffer stays empty even though
the entry that should have been recorded is non-empty — and the one-shot
`ask context` flow with no session exits the process without recording. -/
theorem contextFailure_counterexample :
    addContextInInteractive "boom".data ⟨"oops".data, false⟩ initIState = initIState
    ∧ handleContextModel "boom".data ⟨"oops".data, false⟩ false [] []
        = ⟨[], [], true⟩
    ∧ mkEntry "boom".data "oops".data ≠ [] := by
  exact ⟨by decide, by decide, by decide⟩

/-- C4 amended: only `addContextCommand` (the with-session path of the
one-shot `ask context` flow) records the entry before surfacing a failing
command's error — and its caller then exits the process; the interactive
accumulator records nothing on failure (the loop continues), and the
no-session path of `handleContext` exits without recording. -/
theorem contextFailure_amended :
    (∀ (cmd : Str) (res : ShellResult) (contextTxt : Str),
        (addContextCommand cmd res contextTxt).1 = contextTxt ++ mkEntry cmd res.output
        ∧ ((addContextCommand cmd res contextTxt).2 = true ↔ res.ok = false))
    ∧ (∀ (cmd : Str) (res : ShellResult) (s : IState), res.ok = false →
        addContextInInteractive cmd res s = s)
    ∧ (∀ (cmd : Str) (res : ShellResult) (contextTxt pending : Str), res.ok = false →
        handleContextModel cmd res false contextTxt pending = ⟨contextTxt, pending, true⟩)
    ∧ (∀ (cmd : Str) (res : ShellResult) (contextTxt pending : Str), res.ok = false →
        handleContextModel cmd res true contextTxt pending
          = ⟨contextTxt ++ mkEntry cmd res.output, pending, true⟩) := by
  refine ⟨?_, ?_, ?_, ?_⟩
  · intro cmd res contextTxt
    unfold addContextCommand
    cases res with
    | mk output ok =>
      cases ok <;> simp
  · intro cmd res s h
    unfold addContextInInteractive
    rw [h]
    rfl
  · intro cmd res contextTxt pending h
    unfold handleContextModel
    rw [h]
    rfl
  · intro cmd res contextTxt pending h
    unfold handleContextModel addContextCommand
    rw [h]
    rfl

/-- C4 amended witness: the interactive accumulator drops the entry of a
concrete failing command. -/
theorem contextFailure_amended_witness :
    addContextInInteractive "x".data ⟨"e".data, false⟩ initIState = initIState :=
  contextFailure_amended.2.1 "x".data ⟨"e".data, false⟩ initIState rfl

/-- C7 witness: a root-creation failure errors, and two creations within the
same second conflict, at concrete inputs. -/
theorem storeSession_spec_witness :
    storeSession ⟨false, []⟩ ⟨7, 0⟩ "p".data "a".data "o".data = .error .mkdirRootFailed
    ∧ storeSession ⟨true, [⟨7, "p".data, "a".data, "o".data⟩]⟩ ⟨7, 999⟩
        "q".data "b".data "u".data = .error .mkdirSessionConflict :=
  ⟨storeSession_spec.1 ⟨false, []⟩ ⟨7, 0⟩ "p".data "a".data "o".data rfl,
    (storeSession_spec.2.2 ⟨true, []⟩ ⟨true, [⟨7, "p".data, "a".data, "o".data⟩]⟩
      ⟨7, 3⟩ ⟨7, 999⟩ "p".data "a".data "o".data "q".data "b".data "u".data 7 rfl
      rfl).1⟩

/-- A fence line never counts as a `"$ "` line: a string starting with a
backtick does not start with a dollar sign. -/
theorem fence_not_dollar {t : Str} (h : isFenceLine t = true) :
    dollarMarker.isPrefixOf t = false := by
  cases t with
  | nil => simp [isFenceLine, fenceMarker, List.isPrefixOf] at h
  | cons c t' =>
    simp only [isFenceLine, fenceMarker, List.isPrefixOf, Bool.and_eq_true, beq_iff_eq] at h
    have hc : ('$' == c) = false := by
      rw [← h.1]
      decide
    simp [dollarMarker, List.isPrefixOf, hc]

/-- Trimming a string of whitespace characters yields the empty string. -/
theorem trimSpace_eq_nil {s : Str} (h : ∀ c ∈ s, isSpaceChar c = true) : trimSpace s = [] := by
  unfold trimSpace
  rw [List.dropWhile_eq_nil_iff.mpr h]
  rfl

/-- `joinNL` of a non-empty line list is non-empty. -/
theorem joinNL_ne_nil {body : List Str} (h : body ≠ []) : joinNL body ≠ [] := by
  cases body with
  | nil => exact absurd rfl h
  | cons l ls =>
    show l ++ '\n' :: joinNL ls ≠ []
    cases l <;> simp

/-- Every character of `joinNL` over whitespace-only lines is whitespace. -/
theorem joinNL_all_space {blanks : List Str}
    (h : ∀ l ∈ blanks, ∀ c ∈ l, isSpaceChar c = true) :
    ∀ c ∈ joinNL blanks, isSpaceChar c = true := by
  induction blanks with
  | nil => intro c hc; simp [joinNL] at hc
  | cons l ls ih =>
    intro c hc
    have : c ∈ l ++ '\n' :: joinNL ls := hc
    rcases List.mem_append.mp this with hl | hr
    · exact h l (List.mem_cons_self _ _) c hl
    · rcases List.mem_cons.mp hr with he | ht
      · rw [he]; rfl
      · exact ih (fun x hx => h x (List.mem_cons_of_mem _ hx)) c ht

/-- Lines before the first fence contribute nothing to `extractCodeBlock`. -/
theorem cbAux_outside (pre rest : List Str) (acc : Str)
    (hpre : ∀ l ∈ pre, isFenceLine (trimSpace l) = false) :
    extractCodeBlockAux (pre ++ rest) false acc = extractCodeBlockAux rest false acc := by
  induction pre with
  | nil => rfl
  | cons l pre ih =>
    have hl := hpre l (List.mem_cons_self _ _)
    show extractCodeBlockAux (l :: (pre ++ rest)) false acc = _
    simp only [extractCodeBlockAux, hl, Bool.false_eq_true, if_false]
    exact ih (fun x hx => hpre x (List.mem_cons_of_mem _ hx))

/-- Inside a block, the lines up to the closing fence are appended (each
followed by a newline) to the accumulator and returned at the fence. -/
theorem cbAux_close (body : List Str) (g : Str) (rest : List Str) (acc : Str)
    (hg : isFenceLine (trimSpace g) = true)
    (hb : ∀ l ∈ body, isFenceLine (trimSpace l) = false) :
    extractCodeBlockAux (body ++ g :: rest) true acc = acc ++ joinNL body := by
  induction body generalizing acc with
  | nil =>
    show extractCodeBlockAux (g :: rest) true acc = _
    simp [extractCodeBlockAux, hg, joinNL]
  | cons l body ih =>
    have hl := hb l (List.mem_cons_self _ _)
    show extractCodeBlockAux (l :: (body ++ g :: rest)) true acc = _
    simp only [extractCodeBlockAux, hl, Bool.false_eq_true, if_false, if_true]
    rw [ih (acc ++ l ++ ['\n']) (fun x hx => hb x (List.mem_cons_of_mem _ hx))]
    show _ = acc ++ (l ++ '\n' :: joinNL body)
    simp [List.append_assoc]

/-- An opened block with no closing fence contributes nothing: the loop
falls off the end and returns the empty string. -/
theorem cbAux_unterminated (post : List Str) (acc : Str)
    (hpost : ∀ l ∈ post, isFenceLine (trimSpace l) = false) :
    extractCodeBlockAux post true acc = [] := by
  induction post generalizing acc with
  | nil => rfl
  | cons l post ih =>
    have hl := hpost l (List.mem_cons_self _ _)
    show extractCodeBlockAux (l :: post) true acc = _
    simp only [extractCodeBlockAux, hl, Bool.false_eq_true, if_false, if_true]
    exact ih _ (fun x hx => hpost x (List.mem_cons_of_mem _ hx))

/-- A fence line is skipped by the `"$ "` scan. -/
theorem dollarFirst_cons_fence {l : Str} (rest : List Str)
    (hl : isFenceLine (trimSpace l) = true) :
    dollarFirst (l :: rest) = dollarFirst rest := by
  unfold dollarFirst
  rw [List.filterMap_cons]
  simp [fence_not_dollar hl]

/-- C3 counterexample: on `"x\n```\n$ echo hi\n"` the only fenced block is
unterminated, so per the claim it contributes nothing and — there being no
completed block and no `"$ "` line outside a block — the result should be
the empty string; the code instead returns `"echo hi"`, taken from inside
the unterminated block by the fallback scan. -/
theorem extractCommand_unterminated_counterexample :
    extractCommand ("x\n```\n$ echo hi\n".data) = "echo hi".data
    ∧ "echo hi".data ≠ ([] : Str) := by
  exact ⟨by decide, by decide⟩

/-- C3 amended: `extractFirstCommand` returns the trimmed newline-joined
content of the first completed fenced block when that content is non-empty
(a non-empty block always has non-empty collected content); when no fence
line exists at all it returns the first `"$ "` line (marker stripped, empty
string if none); and when the only fence is unterminated the block yields no
content and the `"$ "` fallback scans every line — including the lines
inside the unterminated block. -/
theorem extractCommand_amended :
    (∀ (pre body rest : List Str) (f g : Str),
        isFenceLine (trimSpace f) = true → isFenceLine (trimSpace g) = true →
        (∀ l ∈ pre, isFenceLine (trimSpace l) = false) →
        (∀ l ∈ body, isFenceLine (trimSpace l) = false) →
        body ≠ [] →
        extractCommandLines (pre ++ f :: body ++ g :: rest) = trimSpace (joinNL body))
    ∧ (∀ lines : List Str, (∀ l ∈ lines, isFenceLine (trimSpace l) = false) →
        extractCommandLines lines = dollarFirst lines)
    ∧ (∀ (pre post : List Str) (f : Str),
        isFenceLine (trimSpace f) = true →
        (∀ l ∈ pre, isFenceLine (trimSpace l) = false) →
        (∀ l ∈ post, isFenceLine (trimSpace l) = false) →
        extractCommandLines (pre ++ f :: post) = dollarFirst (pre ++ f :: post)) := by
  refine ⟨?_, ?_, ?_⟩
  · intro pre body rest f g hf hg hpre hb hbody
    have hcb : extractCodeBlockLines (pre ++ f :: body ++ g :: rest) = joinNL body := by
      unfold extractCodeBlockLines
      rw [List.append_assoc, List.cons_append]
      rw [cbAux_outside pre _ [] hpre]
      show extractCodeBlockAux (f :: (body ++ g :: rest)) false [] = _
      simp only [extractCodeBlockAux, hf, if_true]
      rw [cbAux_close body g rest [] hg hb]
      rfl
    unfold extractCommandLines
    rw [hcb, if_pos (joinNL_ne_nil hbody)]
  · intro lines hl
    have hcb : extractCodeBlockLines lines = [] := by
      unfold extractCodeBlockLines
      have := cbAux_outside lines [] [] hl
      rw [List.append_nil] at this
      rw [this]
      rfl
    unfold extractCommandLines
    rw [hcb]
    simp
  · intro pre post f hf hpre hpost
    have hcb : extractCodeBlockLines (pre ++ f :: post) = [] := by
      unfold extractCodeBlockLines
      rw [cbAux_outside pre _ [] hpre]
      show extractCodeBlockAux (f :: post) false [] = _
      simp only [extractCodeBlockAux, hf, if_true]
      exact cbAux_unterminated post [] hpost
    unfold extractCommandLines
    rw [hcb]
    simp

/-- C3 amended witness: a completed one-line block at a concrete input. -/
theorem extractCommand_amended_witness :
    extractCommandLines (["pre".data] ++ "```".data :: ["do it".data] ++ "```".data :: [])
      = trimSpace (joinNL ["do it".data]) :=
  extractCommand_amended.1 ["pre".data] ["do it".data] [] "```".data "```".data
    (by decide) (by decide) (by decide) (by decide) (by decide)

/-- C10: the `"$ "` fallback runs exactly when the collected content of the
first completed block is empty; an empty completed block (zero lines
between its fences) is skipped and a later `"$ "` line is returned, while a
completed block containing only blank lines has non-empty collected content
that trims to the empty string, which is returned without applying the
fallback. -/
theorem extractCommand_fallback_iff :
    (∀ lines : List Str,
        (extractCodeBlockLines lines ≠ [] →
          extractCommandLines lines = trimSpace (extractCodeBlockLines lines))
        ∧ (extractCodeBlockLines lines = [] →
          extractCommandLines lines = dollarFirst lines))
    ∧ (∀ (f g : Str) (rest : List Str),
        isFenceLine (trimSpace f) = true → isFenceLine (trimSpace g) = true →
        extractCommandLines (f :: g :: rest) = dollarFirst rest)
    ∧ (∀ (f g : Str) (blanks rest : List Str),
        isFenceLine (trimSpace f) = true → isFenceLine (trimSpace g) = true →
        blanks ≠ [] →
        (∀ l ∈ blanks, ∀ c ∈ l, isSpaceChar c = true) →
        extractCommandLines (f :: blanks ++ g :: rest) = []) := by
  refine ⟨?_, ?_, ?_⟩
  · intro lines
    constructor
    · intro h
      unfold extractCommandLines
      rw [if_pos h]
    · intro h
      unfold extractCommandLines
      rw [h]
      simp
  · intro f g rest hf hg
    have hcb : extractCodeBlockLines (f :: g :: rest) = [] := by
      unfold extractCodeBlockLines
      show extractCodeBlockAux (f :: g :: rest) false [] = _
      simp only [extractCodeBlockAux, hf, if_true]
      simp [hg]
    unfold extractCommandLines
    rw [hcb]
    simp only [ne_eq, not_true_eq_false, if_false]
    rw [dollarFirst_cons_fence _ hf, dollarFirst_cons_fence _ hg]
  · intro f g blanks rest hf hg hne hsp
    have hb : ∀ l ∈ blanks, isFenceLine (trimSpace l) = false := by
      intro l hl
      rw [trimSpace_eq_nil (hsp l hl)]
      rfl
    have hcb : extractCodeBlockLines (f :: blanks ++ g :: rest) = joinNL blanks := by
      unfold extractCodeBlockLines
      show extractCodeBlockAux (f :: (blanks ++ g :: rest)) false [] = _
      simp only [extractCodeBlockAux, hf, if_true]
      rw [cbAux_close blanks g rest [] hg hb]
      rfl
    unfold extractCommandLines
    rw [hcb, if_pos (joinNL_ne_nil hne)]
    exact trimSpace_eq_nil (joinNL_all_space hsp)

/-- C10 witness: an empty completed block followed by a `"$ "` line, and a
blank-only block hiding a later `"$ "` line, at concrete inputs. -/
theorem extractCommand_fallback_iff_witness :
    extractCommandLines ("```".data :: "```".data :: ["$ ls".data]) = dollarFirst ["$ ls".data]
    ∧ extractCommandLines ("```".data :: [" ".data] ++ "```".data :: ["$ ls".data]) = [] :=
  ⟨extractCommand_fallback_iff.2.1 "```".data "```".data ["$ ls".data] (by decide) (by decide),
    extractCommand_fallback_iff.2.2 "```".data "```".data [" ".data] ["$ ls".data]
      (by decide) (by decide) (by decide) (by decide)⟩

/-- Lines outside any block contribute their `"$ "` commands in order and
leave the block state untouched. -/
theorem ecAux_outside (pre rest : List Str)
    (hpre : ∀ l ∈ pre, isFenceLine (trimSpace l) = false) :
    extractCommandsAux (pre ++ rest) false []
      = pre.filterMap (fun l => outCmdOpt (trimSpace l)) ++ extractCommandsAux rest false [] := by
  induction pre with
  | nil => rfl
  | cons l pre ih =>
    have hl := hpre l (List.mem_cons_self _ _)
    show extractCommandsAux (l :: (pre ++ rest)) false [] = _
    simp only [extractCommandsAux, hl, Bool.false_eq_true, if_false, List.filterMap_cons]
    cases houtc : outCmdOpt (trimSpace l) with
    | none =>
      simp only [houtc]
      exact ih (fun x hx => hpre x (List.mem_cons_of_mem _ hx))
    | some c =>
      simp only [houtc, List.cons_append, List.cons.injEq, true_and]
      exact ih (fun x hx => hpre x (List.mem_cons_of_mem _ hx))

/-- Inside a block, the collected lines are emitted (filtered through the
in-block command rule, in order) at the closing fence, after which scanning
resumes outside a block with an empty buffer. -/
theorem ecAux_block (body : List Str) (g : Str) (rest : List Str) (bl : List Str)
    (hg : isFenceLine (trimSpace g) = true)
    (hb : ∀ l ∈ body, isFenceLine (trimSpace l) = false) :
    extractCommandsAux (body ++ g :: rest) true bl
      = (bl ++ body).filterMap blockCmdOpt ++ extractCommandsAux rest false [] := by
  induction body generalizing bl with
  | nil =>
    show extractCommandsAux (g :: rest) true bl = _
    simp [extractCommandsAux, hg]
  | cons l body ih =>
    have hl := hb l (List.mem_cons_self _ _)
    show extractCommandsAux (l :: (body ++ g :: rest)) true bl = _
    simp only [extractCommandsAux, hl, Bool.false_eq_true, if_false, if_true]
    rw [ih (bl ++ [l]) (fun x hx => hb x (List.mem_cons_of_mem _ hx))]
    rw [List.append_assoc]
    rfl

/-- C2 counterexample: on the spec's Example 1 input the code does not
return `["ls -la", "echo done"]` — the in-block line keeps its `"$ "`
prefix verbatim. -/
theorem extractCommands_example_counterexample :
    extractCommands ("Do this:\n```\n$ ls -la\necho done\n```\n".data)
      ≠ ["ls -la".data, "echo done".data] := by decide

/-- C2 amended: on the Example 1 answer `extractAllCommands` returns
`["$ ls -la", "echo done"]` — an in-block line is taken verbatim (trimmed),
including any `"$ "` prefix; in general every completed fenced block
contributes one command per non-empty, non-`#`-comment line, in document
order. -/
theorem extractCommands_amended :
    extractCommands ("Do this:\n```\n$ ls -la\necho done\n```\n".data)
      = ["$ ls -la".data, "echo done".data]
    ∧ (∀ (body : List Str) (f g : Str) (rest : List Str),
        isFenceLine (trimSpace f) = true → isFenceLine (trimSpace g) = true →
        (∀ l ∈ body, isFenceLine (trimSpace l) = false) →
        extractCommandsAux (f :: (body ++ g :: rest)) false []
          = body.filterMap blockCmdOpt ++ extractCommandsAux rest false []) := by
  constructor
  · decide
  · intro body f g rest hf hg hb
    simp only [extractCommandsAux, hf, if_true]
    rw [ecAux_block body g rest [] hg hb]
    rfl

/-- C2 amended witness: a one-line block at a concrete input. -/
theorem extractCommands_amended_witness :
    extractCommandsAux ("```".data :: (["echo hi".data] ++ "```".data :: [])) false []
      = ["echo hi".data].filterMap blockCmdOpt ++ extractCommandsAux [] false [] :=
  extractCommands_amended.2 ["echo hi".data] "```".data "```".data []
    (by decide) (by decide) (by decide)

/-- `runCommandInteractively` only ever rewrites `run_output.txt`; the
stored original prompt is untouched. -/
theorem runCmdModel_origP (c : Str) (ext : ExtIn) (sess : ISession) :
    (runCommandInteractivelyModel c ext sess).origP = sess.origP := by
  simp only [runCommandInteractivelyModel]
  split_ifs <;> rfl

/-- Under the session/originalPrompt invariant, the value re-read from
`original_prompt.txt` by `refine` is the `originalPrompt` variable
itself. -/
theorem refineOrig_eq {s : IState} (hInv : InvOrig s) : refineOrig s = s.originalPrompt := by
  unfold refineOrig
  cases hcs : s.currentSession with
  | none => rfl
  | some ss =>
    show (if ss.origP ≠ [] then ss.origP else s.originalPrompt) = s.originalPrompt
    by_cases ho : ss.origP ≠ []
    · rw [if_pos ho]
      exact hInv ss hcs ho
    · rw [if_neg ho]

/-- The `ask` branch never changes a non-empty `originalPrompt`. -/
theorem doAsk_originalPrompt (mc : Nat) (s : IState) (ext : ExtIn)
    (h : s.originalPrompt ≠ []) :
    (doAsk mc s ext).originalPrompt = s.originalPrompt := by
  unfold doAsk
  split
  · rfl
  · cases ext.api with
    | none => rfl
    | some ans => simp [h]

/-- The `ask` branch preserves the session/originalPrompt invariant. -/
theorem doAsk_inv (mc : Nat) (s : IState) (ext : ExtIn) (hInv : InvOrig s) :
    InvOrig (doAsk mc s ext) := by
  unfold doAsk
  split
  · exact hInv
  · cases ext.api with
    | none => exact fun ss hss hne => hInv ss hss hne
    | some ans =>
      intro ss hss _hne
      cases hss
      rfl

/-- The `refine` branch leaves `originalPrompt` unchanged (under the
invariant, the re-read file holds the same value). -/
theorem doRefine_originalPrompt (mc : Nat) (s : IState) (ext : ExtIn) (hInv : InvOrig s) :
    (doRefine mc s ext).originalPrompt = s.originalPrompt := by
  unfold doRefine
  split
  · rfl
  · cases ext.api with
    | none => exact refineOrig_eq hInv
    | some ans => exact refineOrig_eq hInv

/-- The `refine` branch preserves the session/originalPrompt invariant. -/
theorem doRefine_inv (mc : Nat) (s : IState) (ext : ExtIn) (hInv : InvOrig s) :
    InvOrig (doRefine mc s ext) := by
  unfold doRefine
  split
  · exact hInv
  · cases ext.api with
    | none =>
      intro ss hss hne
      show ss.origP = refineOrig s
      rw [refineOrig_eq hInv]
      exact hInv ss hss hne
    | some ans =>
      intro ss hss _hne
      cases hss
      rfl

/-- On a successful refinement the newly stored session carries the same
original prompt. -/
theorem doRefine_session (mc : Nat) (s : IState) (ext : ExtIn) (ans : Str) (hInv : InvOrig s)
    (hans : s.currentAnswer ≠ []) (hapi : ext.api = some ans) :
    (doRefine mc s ext).currentSession
      = some ⟨truncateSimple (refinePrompt s ext.editor) mc, ans, s.originalPrompt, [], []⟩ := by
  unfold doRefine
  rw [if_neg hans, hapi]
  show some _ = _
  rw [refineOrig_eq hInv]

/-- Shape of the `run` branch: either the state is unchanged, or only the
current session is replaced, with the stored original prompt coming from
the existing session or from the `originalPrompt` variable. -/
theorem handleRun_shape (line : Str) (s : IState) (ext : ExtIn) :
    (handleRun line s ext).1 = s
    ∨ ∃ out : ISession, (handleRun line s ext).1 = {s with currentSession := some out}
        ∧ (out.origP = s.originalPrompt
            ∨ ∃ ss, s.currentSession = some ss ∧ out.origP = ss.origP) := by
  unfold handleRun
  repeat' split
  all_goals first
    | (left; rfl)
    | (right
       refine ⟨_, rfl, Or.inl ?_⟩
       exact runCmdModel_origP _ _ _)
    | (right
       refine ⟨_, rfl, Or.inr ⟨_, ?_, runCmdModel_origP _ _ _⟩⟩
       assumption)

/-- Shape of the context accumulator in interactive mode: unchanged on
failure, otherwise only the session's context log or the pending buffer is
extended. -/
theorem addCtx_shape (cmd : Str) (res : ShellResult) (s : IState) :
    addContextInInteractive cmd res s = s
    ∨ (∃ ss, s.currentSession = some ss
        ∧ addContextInInteractive cmd res s
            = ⟨s.currentPrompt, s.currentAnswer, s.originalPrompt, s.pending,
                some ⟨ss.prompt, ss.response, ss.origP, ss.runOutput,
                  ss.contextTxt ++ mkEntry cmd res.output⟩, s.commands⟩)
    ∨ addContextInInteractive cmd res s
        = ⟨s.currentPrompt, s.currentAnswer, s.originalPrompt,
            s.pending ++ mkEntry cmd res.output, s.currentSession, s.commands⟩ := by
  unfold addContextInInteractive
  split
  · left; rfl
  · cases hcs : s.currentSession with
    | none => right; right; rfl
    | some ss => right; left; exact ⟨ss, rfl, rfl⟩

/-- Every branch of the interactive dispatch preserves the
session/originalPrompt invariant. -/
theorem stepLine_inv (mc : Nat) (s : IState) (line : Str) (ext : ExtIn) (hInv : InvOrig s) :
    InvOrig (stepLine mc s line ext) := by
  unfold stepLine
  split_ifs with h1 h2 h3 h4 h5 h6 h7 h8 h82 h9
  · exact hInv
  · exact hInv
  · exact fun ss hss hne => hInv ss hss hne
  · exact fun ss hss hne => hInv ss hss hne
  · exact doAsk_inv mc s ext hInv
  · exact doRefine_inv mc s ext hInv
  · rcases handleRun_shape line s ext with heq | ⟨out, heq, hor⟩
    · rw [heq]; exact hInv
    · rw [heq]
      intro ss hss hne
      cases hss
      rcases hor with horig | ⟨ss0, hcs, horig⟩
      · exact horig
      · rw [horig]
        exact hInv ss0 hcs (by rw [← horig]; exact hne)
  · exact hInv
  · rcases addCtx_shape (trimSpace ext.ctxLine) ext.shell s with heq | ⟨ss0, hcs, heq⟩ | heq
    · rw [heq]; exact hInv
    · rw [heq]
      intro ss hss hne
      cases hss
      exact hInv ss0 hcs hne
    · rw [heq]
      intro ss hss hne
      exact hInv ss hss hne
  · rcases addCtx_shape (line.drop 8) ext.shell s with heq | ⟨ss0, hcs, heq⟩ | heq
    · rw [heq]; exact hInv
    · rw [heq]
      intro ss hss hne
      cases hss
      exact hInv ss0 hcs hne
    · rw [heq]
      intro ss hss hne
      exact hInv ss hss hne
  · exact hInv

/-- No branch of the interactive dispatch changes a non-empty
`originalPrompt`. -/
theorem stepLine_orig (mc : Nat) (s : IState) (line : Str) (ext : ExtIn) (hInv : InvOrig s)
    (h : s.originalPrompt ≠ []) :
    (stepLine mc s line ext).originalPrompt = s.originalPrompt := by
  unfold stepLine
  split_ifs with h1 h2 h3 h4 h5 h6 h7 h8 h82 h9
  · rfl
  · rfl
  · rfl
  · rfl
  · exact doAsk_originalPrompt mc s ext h
  · exact doRefine_originalPrompt mc s ext hInv
  · rcases handleRun_shape line s ext with heq | ⟨out, heq, -⟩ <;> rw [heq]
  · rfl
  · rcases addCtx_shape (trimSpace ext.ctxLine) ext.shell s with heq | ⟨ss0, _, heq⟩ | heq <;>
      rw [heq]
  · rcases addCtx_shape (line.drop 8) ext.shell s with heq | ⟨ss0, _, heq⟩ | heq <;>
      rw [heq]
  · rfl

/-- C5: along a refinement chain `originalPrompt` never changes after its
first write — under the reachability invariant (preserved by every loop
iteration, and true initially), once `originalPrompt` is non-empty no
iteration changes it, and a successful `refine` stores that same original
prompt into the new session it creates. -/
theorem originalPrompt_immutable (maxChars : Nat) (s : IState) (rawLine : Str) (ext : ExtIn)
    (hInv : InvOrig s) :
    InvOrig (step maxChars s rawLine ext)
    ∧ (s.originalPrompt ≠ [] → (step maxChars s rawLine ext).originalPrompt = s.originalPrompt)
    ∧ (trimSpace rawLine = "refine".data → s.currentAnswer ≠ [] →
        ∀ ans, ext.api = some ans →
          ∃ ss, (step maxChars s rawLine ext).currentSession = some ss
            ∧ ss.origP = s.originalPrompt)
    ∧ InvOrig initIState := by
  refine ⟨?_, ?_, ?_, ?_⟩
  · exact stepLine_inv maxChars s (trimSpace rawLine) ext hInv
  · intro h
    exact stepLine_orig maxChars s (trimSpace rawLine) ext hInv h
  · intro hline hans ans hapi
    show ∃ ss, (stepLine maxChars s (trimSpace rawLine) ext).currentSession = some ss ∧ _
    rw [hline]
    have hd : stepLine maxChars s ("refine".data) ext = doRefine maxChars s ext := rfl
    rw [hd, doRefine_session maxChars s ext ans hInv hans hapi]
    exact ⟨_, rfl, rfl⟩
  · intro ss hss _hne
    exact Option.noConfusion hss

/-- C5 witness: one step on a state with a non-empty original prompt and a
consistent session, on a successful `refine`. -/
theorem originalPrompt_immutable_witness :
    (step 100 ⟨"p".data, "a".data, "o".data, [], some ⟨"pp".data, "rr".data, "o".data, [], []⟩, []⟩
        "refine".data ⟨"more".data, some "ans2".data, ⟨[], true⟩, [], []⟩).originalPrompt
      = "o".data
    ∧ ∃ ss, (step 100 ⟨"p".data, "a".data, "o".data, [],
          some ⟨"pp".data, "rr".data, "o".data, [], []⟩, []⟩
        "refine".data ⟨"more".data, some "ans2".data, ⟨[], true⟩, [], []⟩).currentSession
          = some ss ∧ ss.origP = "o".data :=
  ⟨(originalPrompt_immutable 100
      ⟨"p".data, "a".data, "o".data, [], some ⟨"pp".data, "rr".data, "o".data, [], []⟩, []⟩
      "refine".data ⟨"more".data, some "ans2".data, ⟨[], true⟩, [], []⟩
      (by intro ss hss hne; cases hss; rfl)).2.1 (by decide),
    (originalPrompt_immutable 100
      ⟨"p".data, "a".data, "o".data, [], some ⟨"pp".data, "rr".data, "o".data, [], []⟩, []⟩
      "refine".data ⟨"more".data, some "ans2".data, ⟨[], true⟩, [], []⟩
      (by intro ss hss hne; cases hss; rfl)).2.2.1 (by decide) (by decide) "ans2".data rfl⟩

/-- A non-empty pending builder is reset by the `ask` branch whether or not
the API call succeeds. -/
theorem doAsk_pending_cleared (mc : Nat) (s : IState) (ext : ExtIn)
    (hp : s.currentPrompt ≠ []) (hpend : s.pending ≠ []) :
    (doAsk mc s ext).pending = [] := by
  unfold doAsk
  rw [if_neg hp]
  cases ext.api <;> simp [hpend]

/-- On a successful `ask` the new session stores the truncated merged
prompt. -/
theorem doAsk_session (mc : Nat) (s : IState) (ext : ExtIn) (ans : Str)
    (hp : s.currentPrompt ≠ []) (hapi : ext.api = some ans) :
    (doAsk mc s ext).currentSession
      = some ⟨truncateSimple (askPrompt s) mc, ans,
          (if s.originalPrompt = [] then truncateSimple (askPrompt s) mc else s.originalPrompt),
          [], []⟩ := by
  unfold doAsk
  rw [if_neg hp, hapi]

/-- With pending context, the merged prompt is the current prompt followed
by the "Additional Context:" heading and the pending content. -/
theorem askPrompt_eq (s : IState) (hpend : s.pending ≠ []) :
    askPrompt s = s.currentPrompt ++ ctxAppend ++ s.pending := by
  unfold askPrompt
  rw [if_pos hpend]

/-- C6: a prompt build that finds the pending store non-empty appends its
content under an "Additional Context:" heading and clears the store — in
the one-shot `handleAsk` flush and in the interactive `ask` branch, where
the pending builder is reset (even when the API call fails) and, on
success, the first session created afterwards stores the merged prompt
(exactly the merged text whenever it fits the budget). -/
theorem pendingContext_flush :
    (∀ prompt pending : Str, pending ≠ [] →
        flushPending prompt pending = (prompt ++ ctxAppend ++ pending, []))
    ∧ (∀ (maxChars : Nat) (s : IState) (ext : ExtIn),
        s.pending ≠ [] → s.currentPrompt ≠ [] →
        (step maxChars s "ask".data ext).pending = []
        ∧ (∀ ans, ext.api = some ans →
            (step maxChars s "ask".data ext).currentSession
              = some ⟨truncateSimple (s.currentPrompt ++ ctxAppend ++ s.pending) maxChars, ans,
                  (if s.originalPrompt = [] then
                    truncateSimple (s.currentPrompt ++ ctxAppend ++ s.pending) maxChars
                  else s.originalPrompt), [], []⟩)
        ∧ ((s.currentPrompt ++ ctxAppend ++ s.pending).length ≤ maxChars →
            ∀ ans, ext.api = some ans →
            ∃ ss, (step maxChars s "ask".data ext).currentSession = some ss
              ∧ ss.prompt = s.currentPrompt ++ ctxAppend ++ s.pending)) := by
  constructor
  · intro prompt pending hpend
    unfold flushPending
    rw [if_pos hpend]
  · intro maxChars s ext hpend hp
    have hd : step maxChars s "ask".data ext = doAsk maxChars s ext := rfl
    have htr : truncateSimple (askPrompt s) maxChars
        = truncateSimple (s.currentPrompt ++ ctxAppend ++ s.pending) maxChars := by
      rw [askPrompt_eq s hpend]
    refine ⟨?_, ?_, ?_⟩
    · rw [hd]
      exact doAsk_pending_cleared maxChars s ext hp hpend
    · intro ans hapi
      rw [hd, doAsk_session maxChars s ext ans hp hapi, htr]
    · intro hfit ans hapi
      rw [hd, doAsk_session maxChars s ext ans hp hapi]
      refine ⟨_, rfl, ?_⟩
      show truncateSimple (askPrompt s) maxChars = _
      rw [askPrompt_eq s hpend]
      unfold truncateSimple
      rw [if_neg (by omega)]

/-- C6 witness: one pending entry, then `ask` with a successful reply, at
concrete inputs: pending is cleared and the stored prompt ends with the
context section. -/
theorem pendingContext_flush_witness :
    (step 1000 ⟨"hi".data, [], [], "PEND".data, none, []⟩ "ask".data
        ⟨[], some "ANS".data, ⟨[], true⟩, [], []⟩).pending = []
    ∧ ∃ ss, (step 1000 ⟨"hi".data, [], [], "PEND".data, none, []⟩ "ask".data
        ⟨[], some "ANS".data, ⟨[], true⟩, [], []⟩).currentSession = some ss
        ∧ ss.prompt = "hi".data ++ ctxAppend ++ "PEND".data :=
  ⟨(pendingContext_flush.2 1000 ⟨"hi".data, [], [], "PEND".data, none, []⟩
      ⟨[], some "ANS".data, ⟨[], true⟩, [], []⟩ (by decide) (by decide)).1,
    (pendingContext_flush.2 1000 ⟨"hi".data, [], [], "PEND".data, none, []⟩
      ⟨[], some "ANS".data, ⟨[], true⟩, [], []⟩ (by decide) (by decide)).2.2
      (by decide) "ANS".data rfl⟩

/-- Splitting on a separator that does not occur yields the whole string. -/
theorem splitOnChar_not_mem (sep : Char) (s : Str) (h : sep ∉ s) :
    splitOnChar sep s = [s] := by
  induction s with
  | nil => rfl
  | cons c t ih =>
    have hc : ¬(c = sep) := fun he => h (he ▸ List.mem_cons_self c t)
    simp only [splitOnChar, if_neg hc]
    rw [ih (fun hm => h (List.mem_cons_of_mem _ hm))]

/-- `strings.Split("run " + nStr, " ")` is `["run", nStr]` when the
argument has no internal space. -/
theorem splitSp_run_arg (nStr : Str) (h : ' ' ∉ nStr) :
    splitSp ("run ".data ++ nStr) = ["run".data, nStr] := by
  have e1 : splitOnChar ' ' nStr = [nStr] := splitOnChar_not_mem ' ' nStr h
  show splitOnChar ' ' ('r' :: 'u' :: 'n' :: ' ' :: nStr) = _
  simp [splitOnChar, e1]

/-- C8: in interactive mode, `run N` with `N` non-numeric, below 1, or
above the number of cached commands is reported as an invalid command
number and leaves the whole controller state (cached commands, current
prompt, current answer, session) unchanged; plain `run` only lists the
cached commands with 1-based indices and changes no state. -/
theorem runCommand_invalid_index :
    (∀ (s : IState) (ext : ExtIn) (nStr : Str), ' ' ∉ nStr → s.commands ≠ [] →
        (atoi nStr = none
          ∨ ∃ n, atoi nStr = some n ∧ (n < 1 ∨ n > (s.commands.length : Int))) →
        handleRun ("run ".data ++ nStr) s ext = (s, ["Invalid command number.".data]))
    ∧ (∀ (s : IState) (ext : ExtIn),
        handleRun "run".data s ext
          = (s, if s.commands = [] then ["No commands available.".data]
                else "Available commands:".data ::
                  s.commands.enum.map (fun p => fmtNat (p.1 + 1) ++ ": ".data ++ p.2))) := by
  constructor
  · intro s ext nStr hsp hcmds hbad
    unfold handleRun
    rw [splitSp_run_arg nStr hsp]
    rw [if_neg (by simp), if_neg hcmds]
    have harg : (((["run".data, nStr] : List Str).drop 1).headD []) = nStr := rfl
    rw [harg]
    rcases hbad with hnone | ⟨n, hsome, hn⟩
    · rw [hnone]
    · rw [hsome]
      show (if n < 1 ∨ n > (s.commands.length : Int) then _ else _) = _
      rw [if_pos hn]
  · intro s ext
    unfold handleRun
    have e : splitSp "run".data = ["run".data] := rfl
    rw [e, if_pos (show (["run".data] : List Str).length = 1 from rfl)]
    split
    · rfl
    · rfl

/-- C8 witness: `run 5` with two cached commands is rejected without state
change, and plain `run` lists both commands 1-based. -/
theorem runCommand_invalid_index_witness :
    handleRun ("run ".data ++ "5".data)
        ⟨"p".data, "a".data, "o".data, [], none, ["c1".data, "c2".data]⟩
        ⟨[], none, ⟨[], true⟩, [], []⟩
      = (⟨"p".data, "a".data, "o".data, [], none, ["c1".data, "c2".data]⟩,
          ["Invalid command number.".data])
    ∧ handleRun "run".data
        ⟨"p".data, "a".data, "o".data, [], none, ["c1".data, "c2".data]⟩
        ⟨[], none, ⟨[], true⟩, [], []⟩
      = (⟨"p".data, "a".data, "o".data, [], none, ["c1".data, "c2".data]⟩,
          if (["c1".data, "c2".data] : List Str) = [] then ["No commands available.".data]
          else "Available commands:".data ::
            (["c1".data, "c2".data] : List Str).enum.map
              (fun p => fmtNat (p.1 + 1) ++ ": ".data ++ p.2)) :=
  ⟨runCommand_invalid_index.1
      ⟨"p".data, "a".data, "o".data, [], none, ["c1".data, "c2".data]⟩
      ⟨[], none, ⟨[], true⟩, [], []⟩ "5".data (by decide) (by decide)
      (Or.inr ⟨5, by decide, Or.inr (by decide)⟩),
    runCommand_invalid_index.2
      ⟨"p".data, "a".data, "o".data, [], none, ["c1".data, "c2".data]⟩
      ⟨[], none, ⟨[], true⟩, [], []⟩⟩
